import Mathlib

/-!
Verification of the `py-scrcpy` client (`scrcpy_client.py`) against its
natural-language specification.

The development shallowly embeds the parts of the program the claims are
about:

* the stream demuxer of `ScrcpyClient._stream_loop` (byte accumulator,
  length-prefixed packet extraction),
* the listener dispatch of `ScrcpyClient._send_to_listeners`,
* the client state mutated by `stop`, `start` and `_connect_sockets`,
* the server-argument construction of `_get_server_args`.

Bytes are modelled as natural numbers (each chunk a `List Nat`), Python
dictionaries as ordered association lists, sockets/processes/threads as
`Option Bool` handles recording presence and open/alive/terminated status,
and raised-vs-returned behaviour as explicit result constructors.
-/

namespace PyScrcpy

/-- `int.from_bytes(bs, byteorder="big")`: big-endian interpretation of a
byte list. -/
def beBytesToNat (bs : List Nat) : Nat :=
  bs.foldl (fun a b => a * 256 + b) 0

/-- The 4-byte big-endian encoding of a `u32` value, as produced by the
scrcpy wire protocol for the packet-length field and the width/height
fields. -/
def be32encode (n : Nat) : List Nat :=
  [n / 2 ^ 24 % 256, n / 2 ^ 16 % 256, n / 2 ^ 8 % 256, n % 256]

/-- The inner extraction loop of `_stream_loop` (lines 307-317): while at
least 12 bytes are buffered and the buffer holds the full packet announced
by the big-endian length at offsets 8-11, slice out the payload
`data_buffer[12 : 12 + packet_size]` and delete the consumed
`12 + packet_size` bytes from the front.  Returns the extracted payloads in
order together with the remaining accumulator. -/
def extractPackets (buf : List Nat) : List (List Nat) × List Nat :=
  if h1 : buf.length < 12 then ([], buf)
  else
    let packet_size := beBytesToNat ((buf.drop 8).take 4)
    if h2 : buf.length < 12 + packet_size then ([], buf)
    else
      let packet_data := (buf.drop 12).take packet_size
      let rest := buf.drop (12 + packet_size)
      let r := extractPackets rest
      (packet_data :: r.1, r.2)
termination_by buf.length
decreasing_by
  simp only [rest, List.length_drop]
  omega

/-- The outer receive loop of `_stream_loop` (lines 293-317), restricted to
its demultiplexing behaviour: each received chunk is appended to the
accumulator and the inner extraction loop runs; an empty chunk means the
peer closed the socket and breaks the loop.  The running flag is modelled
as held true throughout.  Returns all extracted payloads in order and the
final accumulator. -/
def streamLoop : List (List Nat) → List Nat → List (List Nat) × List Nat
  | [], buf => ([], buf)
  | c :: cs, buf =>
    if c = [] then ([], buf)
    else
      let r := extractPackets (buf ++ c)
      let r2 := streamLoop cs r.2
      (r.1 ++ r2.1, r2.2)

theorem beBytesToNat_be32encode (n : Nat) (h : n < 2 ^ 32) :
    beBytesToNat (be32encode n) = n := by
  simp only [beBytesToNat, be32encode, List.foldl_cons, List.foldl_nil]
  omega

theorem length_be32encode (n : Nat) : (be32encode n).length = 4 := rfl

/-- A wire packet: 8 reserved header bytes, the big-endian length field,
then the payload. -/
def wirePacket (header8 payload : List Nat) : List Nat :=
  header8 ++ be32encode payload.length ++ payload

theorem wirePacket_length (header8 payload : List Nat) (h8 : header8.length = 8) :
    (wirePacket header8 payload).length = 12 + payload.length := by
  simp [wirePacket, h8, length_be32encode]
  omega

/-- On a strict prefix of a single wire packet the extraction loop makes no
progress: either fewer than 12 bytes are buffered, or the (fully present)
length field announces more bytes than are buffered. -/
theorem extractPackets_take (header8 payload : List Nat) (h8 : header8.length = 8)
    (hL : payload.length < 2 ^ 32) (k : Nat)
    (hk : k < 12 + payload.length) :
    extractPackets ((wirePacket header8 payload).take k) = ([], (wirePacket header8 payload).take k) := by
  have hplen : (wirePacket header8 payload).length = 12 + payload.length :=
    wirePacket_length header8 payload h8
  have htlen : ((wirePacket header8 payload).take k).length = k := by
    simp [List.length_take]
    omega
  rw [extractPackets]
  by_cases hk12 : k < 12
  · rw [dif_pos (by omega)]
  · rw [dif_neg (by omega)]
    have hsz : beBytesToNat ((((wirePacket header8 payload).take k).drop 8).take 4)
        = payload.length := by
      have h1 : ((wirePacket header8 payload).take k).drop 8
          = ((wirePacket header8 payload).drop 8).take (k - 8) := by
        rw [List.drop_take]
      have h2 : (wirePacket header8 payload).drop 8 = be32encode payload.length ++ payload := by
        unfold wirePacket
        rw [List.append_assoc, List.drop_left' h8]
      rw [h1, h2, List.take_take]
      have hmin : min 4 (k - 8) = 4 := by omega
      rw [hmin, List.take_left' (length_be32encode payload.length)]
      exact beBytesToNat_be32encode payload.length hL
    rw [hsz, dif_pos (by omega)]

theorem extractPackets_nil : extractPackets [] = ([], []) := by
  rw [extractPackets]
  simp

/-- On exactly one complete wire packet, extraction yields exactly the
payload and empties the accumulator. -/
theorem extractPackets_wirePacket (header8 payload : List Nat) (h8 : header8.length = 8)
    (hL : payload.length < 2 ^ 32) :
    extractPackets (wirePacket header8 payload) = ([payload], []) := by
  have hplen : (wirePacket header8 payload).length = 12 + payload.length :=
    wirePacket_length header8 payload h8
  have hsz : beBytesToNat (((wirePacket header8 payload).drop 8).take 4) = payload.length := by
    have h2 : (wirePacket header8 payload).drop 8 = be32encode payload.length ++ payload := by
      unfold wirePacket
      rw [List.append_assoc, List.drop_left' h8]
    rw [h2, List.take_left' (length_be32encode payload.length)]
    exact beBytesToNat_be32encode payload.length hL
  have h12 : (header8 ++ be32encode payload.length).length = 12 := by
    simp [h8, length_be32encode]
  have hdrop12 : (wirePacket header8 payload).drop 12 = payload := by
    unfold wirePacket
    exact List.drop_left' h12
  rw [extractPackets]
  rw [dif_neg (by omega)]
  rw [hsz, dif_neg (by omega)]
  have hdata : ((wirePacket header8 payload).drop 12).take payload.length = payload := by
    rw [hdrop12, List.take_length]
  have hrest : (wirePacket header8 payload).drop (12 + payload.length) = [] := by
    have hd : (wirePacket header8 payload).drop (12 + payload.length)
        = ((wirePacket header8 payload).drop 12).drop payload.length := by
      rw [List.drop_drop]
    rw [hd, hdrop12, List.drop_length]
  rw [hdata, hrest]
  simp [extractPackets_nil]

theorem flatten_eq_nil_of_ne_nil (cs : List (List Nat)) (hne : ∀ c ∈ cs, c ≠ [])
    (h : cs.flatten = []) : cs = [] := by
  cases cs with
  | nil => rfl
  | cons c cs =>
    exfalso
    simp only [List.flatten_cons] at h
    exact hne c (by simp) (List.append_eq_nil.mp h).1

theorem streamLoop_wirePacket_aux (header8 payload : List Nat) (h8 : header8.length = 8)
    (hL : payload.length < 2 ^ 32) :
    ∀ (cs : List (List Nat)) (buf : List Nat), (∀ c ∈ cs, c ≠ []) →
      buf ++ cs.flatten = wirePacket header8 payload →
      buf.length < 12 + payload.length →
      streamLoop cs buf = ([payload], []) := by
  intro cs
  induction cs with
  | nil =>
    intro buf _ hjoin hlt
    exfalso
    simp only [List.flatten_nil, List.append_nil] at hjoin
    have := wirePacket_length header8 payload h8
    rw [hjoin] at hlt
    omega
  | cons c cs ih =>
    intro buf hne hjoin hlt
    have hc : c ≠ [] := hne c (by simp)
    have hjoin' : (buf ++ c) ++ cs.flatten = wirePacket header8 payload := by
      rw [List.append_assoc]
      simpa [List.flatten_cons, List.append_assoc] using hjoin
    by_cases hcs : cs.flatten = []
    · have hbc : buf ++ c = wirePacket header8 payload := by
        rw [hcs, List.append_nil] at hjoin'
        exact hjoin'
      have hcsnil : cs = [] := flatten_eq_nil_of_ne_nil cs (fun x hx => hne x (by simp [hx])) hcs
      subst hcsnil
      simp only [streamLoop, if_neg hc]
      rw [hbc, extractPackets_wirePacket header8 payload h8 hL]
      rfl
    · have hlt' : (buf ++ c).length < 12 + payload.length := by
        have h1 := congrArg List.length hjoin'
        rw [wirePacket_length header8 payload h8] at h1
        simp only [List.length_append] at h1
        have h2 : cs.flatten.length ≠ 0 := by
          intro h0
          exact hcs (List.length_eq_zero.mp h0)
        simp only [List.length_append]
        omega
      have hbc : buf ++ c = (wirePacket header8 payload).take (buf ++ c).length := by
        rw [← hjoin', List.take_left]
      simp only [streamLoop, if_neg hc]
      rw [hbc, extractPackets_take header8 payload h8 hL _ hlt', ← hbc]
      rw [ih (buf ++ c) (fun x hx => hne x (by simp [hx])) hjoin' hlt']
      rfl

/-- C1: however the `12 + L` bytes of a single packet (8 reserved bytes,
big-endian u32 length, `L` payload bytes) are fragmented across the
sequence of received (non-empty) chunks, the demux loop extracts exactly
one packet, its payload is the original payload, and exactly `12 + L`
bytes are consumed, leaving the accumulator empty. -/
theorem demux_extracts_single_packet (header8 payload : List Nat) (chunks : List (List Nat))
    (h8 : header8.length = 8) (hL : payload.length < 2 ^ 32)
    (hne : ∀ c ∈ chunks, c ≠ [])
    (hjoin : chunks.flatten = wirePacket header8 payload) :
    streamLoop chunks [] = ([payload], []) := by
  apply streamLoop_wirePacket_aux header8 payload h8 hL chunks [] hne
  · simpa using hjoin
  · simp

theorem demux_extracts_single_packet_witness :
    streamLoop [[1, 2, 3], [4, 5, 6, 7, 8, 0], [0, 0, 2, 9], [9]] [] = ([[9, 9]], []) :=
  demux_extracts_single_packet [1, 2, 3, 4, 5, 6, 7, 8] [9, 9]
    [[1, 2, 3], [4, 5, 6, 7, 8, 0], [0, 0, 2, 9], [9]] rfl (by decide) (by decide) rfl

/-- The shape the accumulator of `_stream_loop` has whenever the inner
extraction loop has run to completion: fewer than 12 bytes buffered, or a
complete header but strictly fewer bytes than the next packet needs. -/
def bufInv (b : List Nat) : Prop :=
  b.length < 12 ∨
    (12 ≤ b.length ∧ b.length < 12 + beBytesToNat ((b.drop 8).take 4))

theorem extractPackets_eq (buf : List Nat) :
    extractPackets buf =
      if buf.length < 12 then ([], buf)
      else if buf.length < 12 + beBytesToNat ((buf.drop 8).take 4) then ([], buf)
      else
        ((buf.drop 12).take (beBytesToNat ((buf.drop 8).take 4)) ::
            (extractPackets (buf.drop (12 + beBytesToNat ((buf.drop 8).take 4)))).1,
          (extractPackets (buf.drop (12 + beBytesToNat ((buf.drop 8).take 4)))).2) := by
  by_cases h1 : buf.length < 12
  · rw [extractPackets, dif_pos h1, if_pos h1]
  · by_cases h2 : buf.length < 12 + beBytesToNat ((buf.drop 8).take 4)
    · rw [extractPackets, dif_neg h1, dif_pos h2, if_neg h1, if_pos h2]
    · rw [extractPackets, dif_neg h1, dif_neg h2, if_neg h1, if_neg h2]

theorem extractPackets_bufInv_aux :
    ∀ (n : Nat) (buf : List Nat), buf.length ≤ n →
      bufInv (extractPackets buf).2 ∧
        buf.length = ((extractPackets buf).1.map (fun p => 12 + p.length)).sum
          + (extractPackets buf).2.length := by
  intro n
  induction n with
  | zero =>
    intro buf hb
    have h1 : buf.length < 12 := by omega
    rw [extractPackets_eq, if_pos h1]
    exact ⟨Or.inl h1, by simp⟩
  | succ n ih =>
    intro buf hb
    by_cases h1 : buf.length < 12
    · rw [extractPackets_eq, if_pos h1]
      exact ⟨Or.inl h1, by simp⟩
    · rw [extractPackets_eq, if_neg h1]
      by_cases h2 : buf.length < 12 + beBytesToNat ((buf.drop 8).take 4)
      · rw [if_pos h2]
        refine ⟨Or.inr ⟨?_, ?_⟩, by simp⟩
        · simp only [List.length_nil]
          omega
        · simpa using h2
      · rw [if_neg h2]
        have hrec := ih (buf.drop (12 + beBytesToNat ((buf.drop 8).take 4)))
          (by simp [List.length_drop]; omega)
        refine ⟨hrec.1, ?_⟩
        have hpl : ((buf.drop 12).take (beBytesToNat ((buf.drop 8).take 4))).length
            = beBytesToNat ((buf.drop 8).take 4) := by
          simp [List.length_take, List.length_drop]
          omega
        have hrl := hrec.2
        simp only [List.length_drop] at hrl
        simp only [List.map_cons, List.sum_cons, hpl]
        omega

theorem extractPackets_bufInv (buf : List Nat) :
    bufInv (extractPackets buf).2 ∧
      buf.length = ((extractPackets buf).1.map (fun p => 12 + p.length)).sum
        + (extractPackets buf).2.length :=
  extractPackets_bufInv_aux buf.length buf (Nat.le_refl _)

theorem streamLoop_bufInv (chunks : List (List Nat)) :
    ∀ buf, bufInv buf → bufInv (streamLoop chunks buf).2 := by
  induction chunks with
  | nil => intro buf h; exact h
  | cons c cs ih =>
    intro buf h
    by_cases hc : c = []
    · simp only [streamLoop, if_pos hc]
      exact h
    · simp only [streamLoop, if_neg hc]
      exact ih _ (extractPackets_bufInv (buf ++ c)).1

/-- C2: after the inner extraction loop of `_stream_loop` runs to
completion (running flag held true), the accumulator holds fewer than 12
bytes, or at least 12 but fewer than `12 + declared length` bytes, so a
complete buffered packet is never left unextracted; moreover the consumed
bytes (`12 + payload length` per extracted packet) plus the remaining
bytes exactly account for the buffered bytes, so extraction never consumes
more than is buffered.  The same accumulator shape holds after the demux
loop processes any sequence of received chunks starting from an empty
accumulator. -/
theorem demux_accumulator_invariant (buf : List Nat) (chunks : List (List Nat)) :
    bufInv (extractPackets buf).2 ∧
      buf.length = ((extractPackets buf).1.map (fun p => 12 + p.length)).sum
        + (extractPackets buf).2.length ∧
      bufInv (streamLoop chunks []).2 := by
  refine ⟨(extractPackets_bufInv buf).1, (extractPackets_bufInv buf).2, ?_⟩
  exact streamLoop_bufInv chunks [] (Or.inl (by simp))

/-- The body of `_send_to_listeners` (lines 369-375): invoke each
registered listener in order on the event arguments; a listener that
raises has its exception caught and logged.  A listener invocation is
modelled as a function returning `Except ε Unit` (`.error e` models a
raised exception); the dispatcher records each invocation outcome
(`some e` = raised and was caught, `none` = returned normally) and, being
a total function into a list of outcomes, never propagates an exception
to its caller. -/
def sendToListeners {α ε : Type} : List (α → Except ε Unit) → α → List (Option ε)
  | [], _ => []
  | l :: ls, a =>
    (match l a with
      | Except.ok _ => none
      | Except.error e => some e) :: sendToListeners ls a

theorem sendToListeners_length {α ε : Type} (ls : List (α → Except ε Unit)) (a : α) :
    (sendToListeners ls a).length = ls.length := by
  induction ls with
  | nil => rfl
  | cons l ls ih => simp [sendToListeners, ih]

/-- C7: publishing invokes every subscriber in registration order; a
subscriber that raises is caught (recorded, not propagated), and every
later-registered subscriber is still invoked with the same event
arguments: the outcome list decomposes positionally around the raising
subscriber, with one outcome per subscriber. -/
theorem send_to_listeners_isolates_failures {α ε : Type}
    (ls1 ls2 : List (α → Except ε Unit)) (f : α → Except ε Unit) (a : α) (e : ε)
    (hf : f a = Except.error e) :
    sendToListeners (ls1 ++ f :: ls2) a
        = sendToListeners ls1 a ++ some e :: sendToListeners ls2 a ∧
      (sendToListeners (ls1 ++ f :: ls2) a).length = ls1.length + 1 + ls2.length := by
  constructor
  · induction ls1 with
    | nil => simp [sendToListeners, hf]
    | cons l ls ih => simp [sendToListeners, ih]
  · rw [sendToListeners_length]
    simp
    omega

theorem send_to_listeners_isolates_failures_witness :
    sendToListeners
        (([fun _ => Except.ok ()] : List (Nat → Except Nat Unit))
          ++ (fun _ => Except.error 7) :: [fun _ => Except.ok ()]) 0
      = sendToListeners ([fun _ => Except.ok ()] : List (Nat → Except Nat Unit)) 0
          ++ some 7 :: sendToListeners ([fun _ => Except.ok ()] : List (Nat → Except Nat Unit)) 0 ∧
    (sendToListeners
        (([fun _ => Except.ok ()] : List (Nat → Except Nat Unit))
          ++ (fun _ => Except.error 7) :: [fun _ => Except.ok ()]) 0).length = 1 + 1 + 1 :=
  send_to_listeners_isolates_failures [fun _ => Except.ok ()] [fun _ => Except.ok ()]
    (fun _ => Except.error 7) 0 7 rfl

/-- The mutable state of a `ScrcpyClient` instance relevant to the
lifecycle claims.  Handles mirror the Python attributes:
`stream_thread = some alive` (a `threading.Thread` object, alive or
finished), `control_socket`/`video_socket = some open` (a socket object,
open or closed — `close()` on a closed Python socket is a no-op),
`server_process = some terminated` (a `Popen` handle; terminating an
already-reaped process is a no-op), `local_port = some p` (0 and `None`
are both falsy in the `if self._local_port:` guard). -/
structure ClientState where
  is_running : Bool
  stream_thread : Option Bool
  control_socket : Option Bool
  video_socket : Option Bool
  server_process : Option Bool
  local_port : Option Nat
  resolution : Option (Nat × Nat)
  last_frame : Option (List Nat)
  device_name : String
  video_codec : String
deriving DecidableEq

/-- The field values set by `ScrcpyClient.__init__` (lines 72-82). -/
def initialClient : ClientState :=
  { is_running := false
    stream_thread := none
    control_socket := none
    video_socket := none
    server_process := none
    local_port := none
    resolution := none
    last_frame := none
    device_name := "unknown"
    video_codec := "h264" }

/-- Observable teardown steps performed by `stop`. -/
inductive StopAction where
  | joinThread
  | closeControl
  | closeVideo
  | terminateServer
  | waitServer
  | removeForwardOk
  | removeForwardFailed
deriving DecidableEq

/-- `ScrcpyClient.stop` (lines 400-433): clear the running flag; join the
stream thread if it exists and is alive; close the control socket if
present, then the video socket if present; terminate and wait on the
server process if launched; if a local port was bound, attempt to remove
the reverse tunnel — a failure there (`removeForwardFails`) is caught and
logged, never raised; finally clear `resolution` and `last_frame`.  The
returned action list records the teardown steps in execution order. -/
def stop (s : ClientState) (removeForwardFails : Bool) : ClientState × List StopAction :=
  let joinActs : List StopAction :=
    match s.stream_thread with
    | some true => [StopAction.joinThread]
    | _ => []
  let ctrlActs : List StopAction :=
    match s.control_socket with
    | some _ => [StopAction.closeControl]
    | none => []
  let vidActs : List StopAction :=
    match s.video_socket with
    | some _ => [StopAction.closeVideo]
    | none => []
  let procActs : List StopAction :=
    match s.server_process with
    | some _ => [StopAction.terminateServer, StopAction.waitServer]
    | none => []
  let fwdActs : List StopAction :=
    if s.local_port.getD 0 ≠ 0 then
      [if removeForwardFails then StopAction.removeForwardFailed else StopAction.removeForwardOk]
    else []
  ({ s with
      is_running := false
      stream_thread := s.stream_thread.map (fun _ => false)
      control_socket := s.control_socket.map (fun _ => false)
      video_socket := s.video_socket.map (fun _ => false)
      server_process := s.server_process.map (fun _ => true)
      resolution := none
      last_frame := none },
    joinActs ++ ctrlActs ++ vidActs ++ procActs ++ fwdActs)

/-- C3: `stop` is idempotent on the client state — a second call (under
any behaviour of the tunnel-removal environment) completes, raises
nothing (`stop` is a total function; the only fallible step, tunnel
removal, is absorbed into the action trace), and leaves exactly the state
the first call produced; no release is harmfully repeated because closing
a closed socket and terminating a reaped process are no-ops. -/
theorem stop_idempotent (s : ClientState) (e e2 : Bool) :
    (stop (stop s e).1 e2).1 = (stop s e).1 := by
  cases s
  simp [stop, Option.map_map]

/-- C4: on every call, with all four resources present, `stop` performs
the teardown strictly in the order: close control socket, close video
socket, terminate then wait on the server process, attempt forward
removal (whose failure is recorded in the trace, never raised — the
resulting state does not depend on it); and it ends with `resolution` and
`last_frame` cleared. -/
theorem stop_release_order (s : ClientState) (e : Bool)
    (hc : s.control_socket.isSome) (hv : s.video_socket.isSome)
    (hp : s.server_process.isSome) (hq : s.local_port.getD 0 ≠ 0) :
    (stop s e).2 =
        (match s.stream_thread with
          | some true => [StopAction.joinThread]
          | _ => []) ++
        [StopAction.closeControl, StopAction.closeVideo,
          StopAction.terminateServer, StopAction.waitServer,
          if e then StopAction.removeForwardFailed else StopAction.removeForwardOk] ∧
      (stop s true).1 = (stop s false).1 ∧
      (stop s e).1.resolution = none ∧ (stop s e).1.last_frame = none := by
  obtain ⟨c, hc⟩ := Option.isSome_iff_exists.mp hc
  obtain ⟨v, hv⟩ := Option.isSome_iff_exists.mp hv
  obtain ⟨p, hp⟩ := Option.isSome_iff_exists.mp hp
  refine ⟨?_, by simp [stop], by simp [stop], by simp [stop]⟩
  simp [stop, hc, hv, hp, hq]

theorem stop_release_order_witness :
    (stop { initialClient with
              control_socket := some true
              video_socket := some true
              server_process := some false
              local_port := some 27183 } false).2 =
        ([] : List StopAction) ++
        [StopAction.closeControl, StopAction.closeVideo,
          StopAction.terminateServer, StopAction.waitServer,
          StopAction.removeForwardOk] ∧
      (stop { initialClient with
                control_socket := some true
                video_socket := some true
                server_process := some false
                local_port := some 27183 } true).1 =
        (stop { initialClient with
                  control_socket := some true
                  video_socket := some true
                  server_process := some false
                  local_port := some 27183 } false).1 ∧
      (stop { initialClient with
                control_socket := some true
                video_socket := some true
                server_process := some false
                local_port := some 27183 } false).1.resolution = none ∧
      (stop { initialClient with
                control_socket := some true
                video_socket := some true
                server_process := some false
                local_port := some 27183 } false).1.last_frame = none := by
  have h := stop_release_order
    { initialClient with
        control_socket := some true
        video_socket := some true
        server_process := some false
        local_port := some 27183 } false
    (by decide) (by decide) (by decide) (by decide)
  simpa using h

/-- C9: `stop` leaves `device_name` and `video_codec` (and the recorded
local port) untouched — only the running flag, the released resource
handles, `resolution` and `last_frame` are modified — so after a
successful handshake followed by `stop()` those fields still hold the
values read during the handshake. -/
theorem stop_preserves_handshake_metadata (s : ClientState) (e : Bool) :
    (stop s e).1.device_name = s.device_name ∧
      (stop s e).1.video_codec = s.video_codec ∧
      (stop s e).1.local_port = s.local_port := by
  refine ⟨?_, ?_, ?_⟩ <;> simp [stop]

/-- `SERVER_VERSION` (line 14). -/
def SERVER_VERSION : String := "3.3.3"

/-- The `predefined` defaults dictionary of `_get_server_args`
(lines 91-96), in insertion order. -/
def predefinedArgs : List (String × String) :=
  [("log_level", "info"), ("video_bit_rate", "8000000"),
    ("max_fps", "30"), ("audio", "false")]

/-- Python dict union `d1 | d2` on insertion-ordered association lists:
the keys of `d1` first, in order, each mapped to the `d2` value when the
key also occurs in `d2` (same-key-wins for `d2`), followed by the entries
of `d2` whose keys do not occur in `d1`, in order. -/
def pyDictUnion (d1 d2 : List (String × String)) : List (String × String) :=
  d1.map (fun kv =>
    match d2.find? (fun kv2 => kv2.1 == kv.1) with
    | some kv2 => (kv.1, kv2.2)
    | none => kv)
  ++ d2.filter (fun kv2 => !(d1.any (fun kv => kv.1 == kv2.1)))

/-- Python dict lookup on an insertion-ordered association list. -/
def dictLookup (d : List (String × String)) (k : String) : Option String :=
  (d.find? (fun kv => kv.1 == k)).map (fun kv => kv.2)

/-- Lowercase hex rendering of the session id, as produced by the format
spec `x` in `f"scid={self.scid:x}"`. -/
def hexStr (n : Nat) : String :=
  String.mk (Nat.toDigits 16 n)

/-- `_get_server_args` (lines 89-105): the protocol version string, then
`scid=<hex session id>`, then one `key=value` token per entry of
`predefined | custom`. -/
def getServerArgs (scid : Nat) (custom : List (String × String)) : List String :=
  [SERVER_VERSION, "scid=" ++ hexStr scid]
    ++ (pyDictUnion predefinedArgs custom).map (fun kv => kv.1 ++ "=" ++ kv.2)

theorem find?_filter_of_imp {α : Type} (l : List α) (p q : α → Bool)
    (h : ∀ x, p x = true → q x = true) :
    (l.filter q).find? p = l.find? p := by
  induction l with
  | nil => rfl
  | cons x xs ih =>
    by_cases hp : p x = true
    · rw [List.filter_cons, if_pos (h x hp), List.find?_cons_of_pos _ hp,
        List.find?_cons_of_pos _ hp]
    · by_cases hq : q x = true
      · rw [List.filter_cons, if_pos hq, List.find?_cons_of_neg _ hp,
          List.find?_cons_of_neg _ hp, ih]
      · rw [List.filter_cons, if_neg hq, ih, List.find?_cons_of_neg _ hp]

theorem dictLookup_pyDictUnion (d1 d2 : List (String × String)) (k : String) :
    dictLookup (pyDictUnion d1 d2) k =
      match dictLookup d2 k with
      | some v => some v
      | none => dictLookup d1 k := by
  unfold dictLookup pyDictUnion
  rw [List.find?_append, List.find?_map]
  have hcomp : ((fun kv : String × String => kv.1 == k) ∘ (fun kv : String × String =>
      match d2.find? (fun kv2 => kv2.1 == kv.1) with
      | some kv2 => (kv.1, kv2.2)
      | none => kv)) = (fun kv : String × String => kv.1 == k) := by
    funext kv
    simp only [Function.comp]
    cases d2.find? (fun kv2 => kv2.1 == kv.1) <;> rfl
  rw [hcomp]
  cases hd1 : d1.find? (fun kv => kv.1 == k) with
  | none =>
    have hany : ∀ x : String × String, (x.1 == k) = true →
        (!(d1.any (fun kv => kv.1 == x.1))) = true := by
      intro x hx
      have hx1 : x.1 = k := by simpa using hx
      subst hx1
      have hnone := List.find?_eq_none.mp hd1
      simp only [Bool.not_eq_true', List.any_eq_false]
      intro kv hkv
      simpa using hnone kv hkv
    rw [find?_filter_of_imp _ _ _ hany]
    cases hd2 : d2.find? (fun kv => kv.1 == k) <;> simp
  | some kv =>
    have hkv1 : kv.1 = k := by
      have hsome := List.find?_some hd1
      simpa using hsome
    subst hkv1
    cases hd2 : d2.find? (fun kv2 => kv2.1 == kv.1) with
    | none =>
      simp [hd2]
    | some kv2 =>
      simp [hd2]

/-- C8: for every caller-supplied configuration map, the server argument
list is the protocol version string first, then `scid=` followed by the
session id in hex, then one `key=value` token for each entry of the map
obtained by overriding the defaults (`log_level=info`,
`video_bit_rate=8000000`, `max_fps=30`, `audio=false`) with the
caller-supplied entries; for every key, a caller-supplied value wins over
the default. -/
theorem server_args_spec (scid : Nat) (custom : List (String × String)) :
    getServerArgs scid custom =
        SERVER_VERSION :: ("scid=" ++ hexStr scid) ::
          (pyDictUnion predefinedArgs custom).map (fun kv => kv.1 ++ "=" ++ kv.2) ∧
      ∀ k, dictLookup (pyDictUnion predefinedArgs custom) k =
        match dictLookup custom k with
        | some v => some v
        | none => dictLookup predefinedArgs k := by
  exact ⟨rfl, fun k => dictLookup_pyDictUnion predefinedArgs custom k⟩

/-- Is `b` a UTF-8 continuation byte (`0x80..0xBF`)? -/
def utf8Cont (b : Nat) : Bool := 0x80 ≤ b && b ≤ 0xBF

/-- Admissible first continuation byte after a 3-byte leader `b`
(RFC 3629: `0xE0` requires `0xA0..0xBF`, `0xED` excludes surrogates). -/
def utf8Cont2 (b c1 : Nat) : Bool :=
  if b = 0xE0 then 0xA0 ≤ c1 && c1 ≤ 0xBF
  else if b = 0xED then 0x80 ≤ c1 && c1 ≤ 0x9F
  else utf8Cont c1

/-- Admissible first continuation byte after a 4-byte leader `b`
(RFC 3629: `0xF0` requires `0x90..0xBF`, `0xF4` caps at `0x8F`). -/
def utf8Cont3 (b c1 : Nat) : Bool :=
  if b = 0xF0 then 0x90 ≤ c1 && c1 ≤ 0xBF
  else if b = 0xF4 then 0x80 ≤ c1 && c1 ≤ 0x8F
  else utf8Cont c1

/-- Model of Python `bytes.decode("utf-8")`: strict RFC 3629 decoding.
`none` models a raised `UnicodeDecodeError` (a `ValueError`, which is not
among the socket-error classes caught by `_connect_sockets`). -/
def utf8Decode : List Nat → Option (List Char)
  | [] => some []
  | b :: rest =>
    if b < 0x80 then
      (utf8Decode rest).map (fun cs => Char.ofNat b :: cs)
    else if 0xC2 ≤ b && b ≤ 0xDF then
      match rest with
      | c1 :: r =>
        if utf8Cont c1 then
          (utf8Decode r).map (fun cs =>
            Char.ofNat ((b - 0xC0) * 0x40 + (c1 - 0x80)) :: cs)
        else none
      | [] => none
    else if 0xE0 ≤ b && b ≤ 0xEF then
      match rest with
      | c1 :: c2 :: r =>
        if utf8Cont2 b c1 && utf8Cont c2 then
          (utf8Decode r).map (fun cs =>
            Char.ofNat (((b - 0xE0) * 0x40 + (c1 - 0x80)) * 0x40 + (c2 - 0x80)) :: cs)
        else none
      | _ => none
    else if 0xF0 ≤ b && b ≤ 0xF4 then
      match rest with
      | c1 :: c2 :: c3 :: r =>
        if utf8Cont3 b c1 && utf8Cont c2 && utf8Cont c3 then
          (utf8Decode r).map (fun cs =>
            Char.ofNat ((((b - 0xF0) * 0x40 + (c1 - 0x80)) * 0x40 + (c2 - 0x80)) * 0x40
              + (c3 - 0x80)) :: cs)
        else none
      | _ => none
    else none

/-- Python `str.rstrip("\x00")`: strip trailing NUL characters. -/
def rstripNull (cs : List Char) : List Char :=
  (cs.reverse.dropWhile (fun c => c == Char.ofNat 0)).reverse

/-- Python `str.lower()` restricted to ASCII letters, which is all the
codec comparison at line 237 exercises (codec identifiers are 4 ASCII
bytes). -/
def asciiLower (s : String) : String :=
  String.mk (s.data.map Char.toLower)

/-- Lifecycle events published through `_send_to_listeners`. -/
inductive Event where
  | init
  | frame (data : List Nat)
deriving DecidableEq

/-- Outcome of `_connect_sockets`: returned `True`, returned `False`, or
let an exception escape (one not caught by its socket-error handlers). -/
inductive ConnectResult where
  | success
  | failure
  | raised
deriving DecidableEq

/-- The metadata-parsing phase of `_connect_sockets` (lines 190-282),
after both sockets are accepted, reading from the video channel modelled
as the byte list `stream`: bind a local port, launch the server process,
accept the video and control sockets; `_recv_all` of the 64-byte device
name (raising `ConnectionAbortedError`, caught, when the stream is
exhausted first), UTF-8 decode (uncaught `UnicodeDecodeError` on invalid
bytes), strip trailing NULs; `_recv_all` and decode the 4-byte codec id;
reject a codec whose lowercase form is not `"h264"`; read the big-endian
width and height; reject resolution `(0, 0)`; on success publish `init`.
Returns the updated client state, the outcome, and the published events. -/
def connectSockets (s : ClientState) (port : Nat) (stream : List Nat) :
    ClientState × ConnectResult × List Event :=
  let s0 := { s with
    local_port := some port
    server_process := some false
    video_socket := some true
    control_socket := some true }
  if stream.length < 64 then (s0, ConnectResult.failure, [])
  else
    match utf8Decode (stream.take 64) with
    | none => (s0, ConnectResult.raised, [])
    | some nameChars =>
      let s1 := { s0 with device_name := String.mk (rstripNull nameChars) }
      if (stream.drop 64).length < 4 then (s1, ConnectResult.failure, [])
      else
        match utf8Decode ((stream.drop 64).take 4) with
        | none => (s1, ConnectResult.raised, [])
        | some codecChars =>
          let s2 := { s1 with video_codec := String.mk codecChars }
          if asciiLower (String.mk codecChars) ≠ "h264" then (s2, ConnectResult.failure, [])
          else
            if ((stream.drop 64).drop 4).length < 8 then (s2, ConnectResult.failure, [])
            else
              let w := beBytesToNat (((stream.drop 64).drop 4).take 4)
              let h := beBytesToNat ((((stream.drop 64).drop 4).drop 4).take 4)
              let s3 := { s2 with resolution := some (w, h) }
              if (w, h) = ((0 : Nat), (0 : Nat)) then (s3, ConnectResult.failure, [])
              else (s3, ConnectResult.success, [Event.init])

/-- Outcome of `start` (lines 377-398): warned and returned because
already running, returned normally (with the final state, the events
published during the session, and the teardown trace when the handshake
failure path invoked `stop`), or let an exception escape to the caller. -/
inductive StartOutcome where
  | alreadyRunning (s : ClientState)
  | returned (s : ClientState) (events : List Event) (stopTrace : List StopAction)
  | raised
deriving DecidableEq

/-- `start` (lines 377-398) composed with the demux loop it spawns: no-op
if already running; otherwise run the handshake; on handshake failure
call `stop` and return; on an uncaught handshake exception propagate it;
on success set the running flag, run the stream loop over the received
`chunks`, decode each demuxed packet payload with the external decoder
`decode` (zero or more frames per packet), publishing a `frame` event and
updating `last_frame` per decoded frame, and clear the running flag when
the loop ends. -/
def start (s : ClientState) (port : Nat) (stream : List Nat) (chunks : List (List Nat))
    (decode : List Nat → List (List Nat)) : StartOutcome :=
  if s.is_running then StartOutcome.alreadyRunning s
  else
    match connectSockets s port stream with
    | (_, ConnectResult.raised, _) => StartOutcome.raised
    | (s1, ConnectResult.failure, evs) =>
      let r := stop s1 false
      StartOutcome.returned r.1 evs r.2
    | (s1, ConnectResult.success, evs) =>
      let s2 := { s1 with is_running := true, stream_thread := some true }
      let frames := (((streamLoop chunks []).1).map decode).flatten
      let s3 := { s2 with
        is_running := false
        stream_thread := some false
        last_frame := match frames.getLast? with
          | some f => some f
          | none => s2.last_frame }
      StartOutcome.returned s3 (evs ++ frames.map Event.frame) []

/-- The events a `start` invocation published. -/
def startEvents : StartOutcome → List Event
  | StartOutcome.returned _ evs _ => evs
  | _ => []

theorem connectSockets_events (s : ClientState) (port : Nat) (stream : List Nat) :
    ((connectSockets s port stream).2.1 = ConnectResult.success ∧
        (connectSockets s port stream).2.2 = [Event.init]) ∨
      ((connectSockets s port stream).2.1 ≠ ConnectResult.success ∧
        (connectSockets s port stream).2.2 = []) := by
  unfold connectSockets
  repeat' split
  all_goals simp
  all_goals split
  all_goals simp

/-- C5: a handshake whose 4-byte codec field decodes to a string that is
not case-insensitively `"h264"` (e.g. `"h265"`) makes `start` return
normally (no exception), publishing no `init` event, having invoked the
full `stop` teardown, and leaving the running flag false. -/
theorem unsupported_codec_start (s : ClientState) (port : Nat)
    (nameBytes codecBytes rest : List Nat) (chunks : List (List Nat))
    (decode : List Nat → List (List Nat)) (codecChars : List Char)
    (hrun : s.is_running = false)
    (hn : nameBytes.length = 64)
    (hnc : ∃ cs, utf8Decode nameBytes = some cs)
    (hc4 : codecBytes.length = 4)
    (hcc : utf8Decode codecBytes = some codecChars)
    (hbad : asciiLower (String.mk codecChars) ≠ "h264") :
    ∃ s1, start s port (nameBytes ++ codecBytes ++ rest) chunks decode
        = StartOutcome.returned (stop s1 false).1 [] (stop s1 false).2 ∧
      (stop s1 false).1.is_running = false := by
  obtain ⟨nameChars, hnd⟩ := hnc
  have hlen : ¬ ((nameBytes ++ codecBytes ++ rest).length < 64) := by
    simp [List.length_append, hn, hc4]
  have htake64 : (nameBytes ++ codecBytes ++ rest).take 64 = nameBytes := by
    rw [List.append_assoc]
    exact List.take_left' hn
  have hdrop64 : (nameBytes ++ codecBytes ++ rest).drop 64 = codecBytes ++ rest := by
    rw [List.append_assoc]
    exact List.drop_left' hn
  have hlen4 : ¬ (((nameBytes ++ codecBytes ++ rest).drop 64).length < 4) := by
    rw [hdrop64]
    simp [List.length_append, hc4]
  have htake4 : ((nameBytes ++ codecBytes ++ rest).drop 64).take 4 = codecBytes := by
    rw [hdrop64]
    exact List.take_left' hc4
  have hconn : connectSockets s port (nameBytes ++ codecBytes ++ rest) =
      ({ s with
          local_port := some port
          server_process := some false
          video_socket := some true
          control_socket := some true
          device_name := String.mk (rstripNull nameChars)
          video_codec := String.mk codecChars },
        ConnectResult.failure, []) := by
    unfold connectSockets
    rw [if_neg hlen, htake64, hnd]
    simp only
    rw [if_neg hlen4, htake4, hcc]
    simp only
    rw [if_pos hbad]
  refine ⟨{ s with
      local_port := some port
      server_process := some false
      video_socket := some true
      control_socket := some true
      device_name := String.mk (rstripNull nameChars)
      video_codec := String.mk codecChars }, ?_, by simp [stop]⟩
  unfold start
  rw [hconn]
  simp [hrun]

theorem unsupported_codec_start_witness :
    ∃ s1, start initialClient 27183
          (List.replicate 64 0 ++ [104, 50, 54, 53] ++ []) [] (fun _ => [])
        = StartOutcome.returned (stop s1 false).1 [] (stop s1 false).2 ∧
      (stop s1 false).1.is_running = false :=
  unsupported_codec_start initialClient 27183 (List.replicate 64 0) [104, 50, 54, 53] []
    [] (fun _ => []) [Char.ofNat 104, Char.ofNat 50, Char.ofNat 54, Char.ofNat 53]
    rfl (by decide) ⟨List.replicate 64 (Char.ofNat 0), by decide⟩ (by decide)
    (by decide) (by decide)

/-- C6: in any one session (`start` invocation), the `init` event can
only occupy position 0 of the published event sequence — hence it is
published at most once and strictly before every `frame` event — and it
is published only when the handshake succeeds. -/
theorem init_event_unique_and_first (s : ClientState) (port : Nat) (stream : List Nat)
    (chunks : List (List Nat)) (decode : List Nat → List (List Nat)) :
    (∀ k, (startEvents (start s port stream chunks decode)).get? k = some Event.init → k = 0) ∧
      ((connectSockets s port stream).2.1 ≠ ConnectResult.success →
        Event.init ∉ startEvents (start s port stream chunks decode)) := by
  by_cases hrun : s.is_running
  · unfold start
    rw [if_pos hrun]
    simp [startEvents]
  · unfold start
    rw [if_neg hrun]
    rcases hc : connectSockets s port stream with ⟨s1, r, evs⟩
    rcases connectSockets_events s port stream with ⟨hsucc, hevs⟩ | ⟨hfail, hevs⟩
    · rw [hc] at hsucc hevs
      simp at hsucc hevs
      subst hsucc
      subst hevs
      simp only [startEvents]
      constructor
      · intro k hk
        match k with
        | 0 => rfl
        | k + 1 =>
          exfalso
          simp only [List.cons_append, List.nil_append, List.get?_cons_succ] at hk
          have hmem := List.get?_mem hk
          obtain ⟨x, _, hx⟩ := List.mem_map.mp hmem
          exact Event.noConfusion hx
      · intro hne
        exact absurd rfl hne
    · rw [hc] at hfail hevs
      simp at hfail hevs
      subst hevs
      cases r with
      | success => exact absurd rfl hfail
      | failure => simp [startEvents]
      | raised => simp [startEvents]

/-- C10: handshake byte streams whose device-name field (here 64 bytes
`0xFF`) or codec field (here `0xFF 0xFF 0xFF 0xFF` after a NUL-padded
name) are not valid UTF-8 make the decode raise an error that the
handshake's socket-error handlers do not catch, so `start` propagates an
exception to its caller instead of returning normally. -/
theorem invalid_utf8_handshake_raises :
    (connectSockets initialClient 27183 (List.replicate 68 255)).2.1
        = ConnectResult.raised ∧
      (connectSockets initialClient 27183
          (List.replicate 64 0 ++ [255, 255, 255, 255])).2.1 = ConnectResult.raised ∧
      start initialClient 27183 (List.replicate 68 255) [] (fun _ => [])
        = StartOutcome.raised ∧
      start initialClient 27183 (List.replicate 64 0 ++ [255, 255, 255, 255]) []
          (fun _ => []) = StartOutcome.raised := by
  refine ⟨?_, ?_, ?_, ?_⟩ <;> decide

end PyScrcpy
